import Mathlib

/-!
Verification development for the `gaphor` code generator
(`src/gaphor/codegen/coder.py`).

The Python object graph is embedded shallowly: model elements become Lean
structures, object references become indices into the model's class list,
and the generator functions become executable Lean functions.  Python's
`None` becomes `Option`, Python truthiness of optional strings is made
explicit (`pyTruthy`), and exceptions become `Except String`.  Recursions
that in Python walk the object graph (generalization chains, the class
ordering) are given an explicit fuel parameter; the theorems show the
results are the expected ones whenever the run succeeds, and that enough
fuel exists whenever the generalization graph is acyclic.
-/

namespace GaphorCoder

/-- Python truthiness of an optional string: `None` and `""` are falsy. -/
def pyTruthy : Option String → Bool
  | none => false
  | some s => !s.isEmpty

/-- Rendering of an optional string inside an f-string: `None` prints as `"None"`. -/
def pyStr : Option String → String
  | none => "None"
  | some s => s

/-- Python `str.title()` on a list of characters: the first letter of every
alphabetic run is upper-cased, the rest lower-cased. -/
def pyTitleGo : Bool → List Char → List Char
  | _, [] => []
  | prevAlpha, ch :: rest =>
    let isA := ch.isAlpha
    (if isA then (if prevAlpha then ch.toLower else ch.toUpper) else ch)
      :: pyTitleGo isA rest

/-- Python `str.title()`. -/
def pyTitle (s : String) : String :=
  String.mk (pyTitleGo false s.data)

/-- Stable insertion into a list sorted by `le` (new element goes after equals). -/
def insertLe (le : α → α → Bool) (a : α) : List α → List α
  | [] => [a]
  | b :: rest => if le b a then b :: insertLe le a rest else a :: b :: rest

/-- Stable insertion sort, the embedding of Python's `sorted(..., key=...)`. -/
def insertionSortBy (le : α → α → Bool) : List α → List α
  | [] => []
  | a :: rest => insertLe le a (insertionSortBy le rest)

/-- One character list is an initial segment of another (kernel-computable
embedding of Python's `str.startswith` on the underlying characters). -/
def charsInit : List Char → List Char → Bool
  | [], _ => true
  | _ :: _, [] => false
  | a :: as, b :: bs => a == b && charsInit as bs

/-- Python `str.startswith`. -/
def strStartsWith (s pre : String) : Bool := charsInit pre.data s.data

/-- Python `str.endswith`. -/
def strEndsWith (s post : String) : Bool := charsInit post.data.reverse s.data.reverse

/-- Lexicographic comparison by code point (kernel-computable embedding of
Python's string ordering, used by `sorted`). -/
def charsLe : List Char → List Char → Bool
  | [], _ => true
  | _ :: _, [] => false
  | a :: as, b :: bs => if a == b then charsLe as bs else decide (a < b)

/-- Python string `<=` as used by `sorted`. -/
def strLe (s t : String) : Bool := charsLe s.data t.data

/-- Python `str.strip()`: leading and trailing whitespace removed. -/
def strTrim (s : String) : String :=
  String.mk (((s.data.dropWhile Char.isWhitespace).reverse.dropWhile
    Char.isWhitespace).reverse)

/-- Splitting on a separator character, accumulator variant. -/
def splitChGo (sep : Char) : List Char → List Char → List String
  | [], acc => [String.mk acc.reverse]
  | c :: rest, acc =>
    if c == sep then String.mk acc.reverse :: splitChGo sep rest []
    else splitChGo sep rest (c :: acc)

/-- Python `str.split(",")` (the only separator the source uses). -/
def strSplitComma (s : String) : List String := splitChGo ',' s.data []

/-- The association object an attribute may take part in (`a.association`).
`ownedEndClass` is the class of the association's owned end, used for the
synthetic metaclass base edge (`bases`).  The embedding assumes a
well-formed association object, as the source does. -/
structure Association where
  isExtension : Bool
  ownedEndClass : Nat
  deriving Repr, DecidableEq

/-- The opposite end of an attribute (`a.opposite`): only its name and
whether it has an owning class (`a.opposite.class_` truthiness) are read. -/
structure OppositeEnd where
  name : Option String
  hasClass : Bool
  deriving Repr, DecidableEq

/-- An attribute edge (`UML.Property`).  Class references (`type`) are
indices into the model's class list.  `slots` lists the
`(definingFeature.name, value)` pairs of `a.appliedStereotype[:].slot`. -/
structure Property where
  name : Option String
  typeValue : Option String
  type : Option Nat
  isDerived : Bool
  defaultValue : Option String
  lowerValue : Option String
  upperValue : Option String
  aggregation : Option String
  association : Option Association
  slots : List (String × String)
  opposite : Option OppositeEnd
  deriving Repr, DecidableEq

/-- A package (`UML.Package` / `UML.Profile`); `isProfile` records whether the
element is a `Profile`, `owningPackage` is an index into the package list. -/
structure Package where
  name : String
  isProfile : Bool
  owningPackage : Option Nat
  deriving Repr, DecidableEq

/-- A class node (`UML.Class`).  `generalization` lists the indices of the
`general` classes, `appliedStereotypes` the names of applied stereotypes
(read by `is_simple_type`), `ownedOperation` only operation names. -/
structure UMLClass where
  name : String
  generalization : List Nat
  ownedAttribute : List Property
  ownedOperation : List (Option String)
  appliedStereotypes : List String
  owningPackage : Option Nat
  deriving Repr, DecidableEq

/-- A loaded model (`ElementFactory`): classes and packages in factory order. -/
structure Model where
  classes : List UMLClass
  packages : List Package
  deriving Repr, DecidableEq

/-- Modelled from the spec: the override table of `gaphor/codegen/override.py`
(not under `src/`) maps a qualified name to its literal replacement text
(`get_override`) and, for property overrides, a declared type (`get_type`). -/
structure OverrideEntry where
  name : String
  text : String
  typeText : String
  deriving Repr, DecidableEq

/-- Modelled from the spec: the loaded overrides file, a read-only table of
entries plus an optional header block. -/
structure Overrides where
  entries : List OverrideEntry
  header : Option String
  deriving Repr, DecidableEq

/-- Membership test of the override table (`Overrides.has_override`). -/
def Overrides.has_override (o : Overrides) (n : String) : Bool :=
  (o.entries.find? (fun e => e.name == n)).isSome

/-- Literal replacement text for a name (`Overrides.get_override`). -/
def Overrides.get_override (o : Overrides) (n : String) : String :=
  match o.entries.find? (fun e => e.name == n) with
  | some e => e.text
  | none => ""

/-- Declared type of an overridden member (`Overrides.get_type`). -/
def Overrides.get_type (o : Overrides) (n : String) : String :=
  match o.entries.find? (fun e => e.name == n) with
  | some e => e.typeText
  | none => ""

/-- `overrides and overrides.has_override(n)` for the optional overrides object. -/
def hasOverrideOpt : Option Overrides → String → Bool
  | none, _ => false
  | some o, n => o.has_override n

/-- `overrides.get_override(n)` under an optional overrides object. -/
def getOverrideOpt : Option Overrides → String → String
  | none, _ => ""
  | some o, n => o.get_override n

/-- `overrides.get_type(n)` under an optional overrides object. -/
def getTypeOpt : Option Overrides → String → String
  | none, _ => ""
  | some o, n => o.get_type n

/-- Source `is_enumeration` applied to a class object: name ends in the
reserved suffix `"Kind"` or `"Sort"` (and is non-empty, Python truthiness). -/
def is_enumeration_cls (c : UMLClass) : Bool :=
  !c.name.isEmpty && (strEndsWith c.name "Kind" || strEndsWith c.name "Sort")

/-- Source `is_enumeration` applied to an optional class reference
(`a.type` may be `None`, which is falsy). -/
def is_enumeration_ref (m : Model) : Option Nat → Bool
  | none => false
  | some ci =>
    match m.classes[ci]? with
    | some c => is_enumeration_cls c
    | none => false

/-- Source `is_tilde_type`: the class name starts with the `~` marker. -/
def is_tilde_type (c : UMLClass) : Bool :=
  !c.name.isEmpty && strStartsWith c.name "~"

/-- Source `is_extension_end`: the attribute's association is a `UML.Extension`. -/
def is_extension_end (a : Property) : Bool :=
  match a.association with
  | some assoc => assoc.isExtension
  | none => false

/-- Source `is_simple_type`: a `SimpleAttribute` stereotype is applied to the
class or, recursively, to one of its generals.  The recursion over the
generalization graph is bounded by a fuel parameter. -/
def is_simple_type (m : Model) : Nat → Nat → Bool
  | 0, _ => false
  | fuel + 1, ci =>
    match m.classes[ci]? with
    | none => false
    | some c =>
      c.appliedStereotypes.contains "SimpleAttribute"
        || c.generalization.any (fun g => is_simple_type m fuel g)

/-- Inner `test` of source `is_in_profile`: walk the owning-package chain
looking for a `Profile`. -/
def is_in_profile_test (m : Model) : Nat → Option Nat → Bool
  | _, none => false
  | 0, some _ => false
  | fuel + 1, some pi =>
    match m.packages[pi]? with
    | none => false
    | some p => p.isProfile || is_in_profile_test m fuel p.owningPackage

/-- Source `is_in_profile` for a class. -/
def is_in_profile (m : Model) (fuel : Nat) (c : UMLClass) : Bool :=
  is_in_profile_test m fuel c.owningPackage

/-- Source `redefines`: the value of the first applied-stereotype slot whose
defining feature is named `"redefines"`. -/
def redefines (a : Property) : Option String :=
  match a.slots.find? (fun s => s.1 == "redefines") with
  | some s => some s.2
  | none => none

/-- Source `bases`: the generals of a class plus, for every attribute
literally named `baseClass` that takes part in an association, the class of
that association's owned end (the synthetic metaclass edge). -/
def bases (m : Model) (ci : Nat) : List Nat :=
  match m.classes[ci]? with
  | none => []
  | some c =>
    c.generalization ++ c.ownedAttribute.filterMap (fun a =>
      match a.association, a.name with
      | some assoc, some n => if n == "baseClass" then some assoc.ownedEndClass else none
      | _, _ => none)

/-- Inner `test` of source `is_reassignment`: some (transitive) base class
owns an attribute with the given name. -/
def has_attr_named (m : Model) : Nat → Option String → Nat → Bool
  | 0, _, _ => false
  | fuel + 1, n, ci =>
    match m.classes[ci]? with
    | none => false
    | some c =>
      c.ownedAttribute.any (fun attr => attr.name == n)
        || (bases m ci).any (fun b => has_attr_named m fuel n b)

/-- Source `is_reassignment`: a same-named attribute is already defined by
one of the owner's (transitive) base classes. -/
def is_reassignment (m : Model) (fuel : Nat) (ownerIdx : Nat) (a : Property) : Bool :=
  (bases m ownerIdx).any (fun b => has_attr_named m fuel a.name b)

/-- One pass of the inner `order` generator of source `order_classes` over a
worklist: a class already in `seen` is skipped; otherwise its bases are
emitted first (one unit of fuel is spent on the descent), then the class
itself is emitted and added to `seen`.  `rec c s` processes the bases of `c`
starting from the seen-list `s`. -/
def goList (rec : Nat → List Nat → Option (List Nat × List Nat)) :
    List Nat → List Nat → Option (List Nat × List Nat)
  | [], seen => some ([], seen)
  | c :: rest, seen =>
    if c ∈ seen then goList rec rest seen
    else
      match rec c seen with
      | none => none
      | some (o1, seen1) =>
        match goList rec rest (c :: seen1) with
        | none => none
        | some (o2, seen2) => some (o1 ++ c :: o2, seen2)

/-- Depth-first emission over the base-class graph `bs`, the embedding of the
recursive `order` generator in source `order_classes`.  Runs out of fuel
(returns `none`) on base chains deeper than `fuel`. -/
def orderRun (bs : Nat → List Nat) : Nat → List Nat → List Nat → Option (List Nat × List Nat)
  | 0, _, _ => none
  | fuel + 1, l, seen => goList (fun c s => orderRun bs fuel (bs c) s) l seen

/-- Source `order_classes`: emit every class of the input after all of its
(transitive) bases, marking visited classes to prevent duplicates. -/
def order_classes (bs : Nat → List Nat) (fuel : Nat) (classes : List Nat) : Option (List Nat) :=
  (orderRun bs fuel classes []).map Prod.fst

/-- Name of an attribute's type class (`a.type.name`); empty when unresolved. -/
def typeName (m : Model) (a : Property) : String :=
  match a.type with
  | some ti =>
    match m.classes[ti]? with
    | some tc => tc.name
    | none => ""
  | none => ""

/-- Sort key of Python's `sorted(..., key=lambda a: a.name or "")`. -/
def nameKey (a : Property) : String :=
  match a.name with
  | some s => s
  | none => ""

/-- The derived `Property.upper` of the gaphor data model (not under `src/`):
`upperValue or "*"`, following the repository's multiplicity convention. -/
def upperOf (a : Property) : String :=
  match a.upperValue with
  | some s => if s.isEmpty then "*" else s
  | none => "*"

/-- Source `class_declaration`: the header line listing the immediate bases
sorted by name. -/
def class_declaration (m : Model) (ci : Nat) : String :=
  match m.classes[ci]? with
  | none => ""
  | some c =>
    let bcs := (bases m ci).filterMap (fun b => m.classes[b]?)
    let sortedBcs := insertionSortBy (fun x y => strLe x.name y.name) bcs
    "class " ++ c.name ++ "(" ++ String.intercalate ", " (sortedBcs.map UMLClass.name) ++ "):"

/-- Source `default_value`.  The owner's name is passed explicitly (Python
reads it off `a.owner`).  A set, truthy default with a primitive type other
than `int` or `str` is the fatal unknown-default-value-type error. -/
def default_value (ownerName : String) (a : Property) : Except String String :=
  if pyTruthy a.defaultValue then
    let dv := pyStr a.defaultValue
    if a.typeValue == some "int" then .ok (", default=" ++ pyTitle dv)
    else if a.typeValue == some "str" then .ok (", default=\"" ++ dv ++ "\"")
    else .error ("Unknown default value type: " ++ ownerName ++ "." ++ pyStr a.name
        ++ ": " ++ pyStr a.typeValue ++ " = " ++ dv)
  else .ok ""

/-- Source `lower`: optional lower-bound argument, omitted for `None` and `"0"`. -/
def lower (a : Property) : String :=
  match a.lowerValue with
  | none => ""
  | some v => if v == "0" then "" else ", lower=" ++ v

/-- Source `upper`: optional upper-bound argument, omitted for `None` and `"*"`. -/
def upper (a : Property) : String :=
  match a.upperValue with
  | none => ""
  | some v => if v == "*" then "" else ", upper=" ++ v

/-- Source `composite`: ownership marker for composite aggregation. -/
def composite (a : Property) : String :=
  if a.aggregation == some "composite" then ", composite=True" else ""

/-- Source `opposite`: named-opposite argument, included only when the
opposite end exists and has both a (truthy) name and an owning class. -/
def opposite (a : Property) : String :=
  match a.opposite with
  | some o =>
    if pyTruthy o.name && o.hasClass then ", opposite=\"" ++ pyStr o.name ++ "\"" else ""
  | none => ""

/-- The primitive-attribute line of source `variables`
(`{name}: _attribute[{tv}] = _attribute("{name}", {tv}{default})`). -/
def attrValueLine (a : Property) (d : String) : String :=
  pyStr a.name ++ ": _attribute[" ++ pyStr a.typeValue ++ "] = _attribute(\""
    ++ pyStr a.name ++ "\", " ++ pyStr a.typeValue ++ d ++ ")"

/-- The inline-enumeration line of source `variables`: all owned values of the
enumeration class as literals, with the first owned value as the default. -/
def enumLine (a : Property) (e0 : Property) (values : List Property) : String :=
  pyStr a.name ++ " = _enumeration(\"" ++ pyStr a.name ++ "\", ("
    ++ String.intercalate ", " (values.map (fun e => "\"" ++ pyStr e.name ++ "\""))
    ++ "), \"" ++ pyStr e0.name ++ "\")"

/-- The lines source `variables` yields for one owned attribute, in the
branch order of the source: extension ends are skipped, then override,
unimplemented-derived skip, primitive `_attribute`, inline enumeration,
relation, and finally the fatal unwritable-attribute error. -/
def variableLinesFor (m : Model) (fuel : Nat) (ov : Option Overrides) (ownerIdx : Nat)
    (cname : String) (a : Property) : Except String (List String) :=
  if is_extension_end a then .ok []
  else
    let full_name := cname ++ "." ++ pyStr a.name
    if hasOverrideOpt ov full_name then
      .ok [pyStr a.name ++ ": " ++ getTypeOpt ov full_name]
    else if a.isDerived && a.type.isNone then
      .ok []
    else if pyTruthy a.typeValue then
      match default_value cname a with
      | .error e => .error e
      | .ok d => .ok [attrValueLine a d]
    else if is_enumeration_ref m a.type then
      match a.type with
      | some ti =>
        match m.classes[ti]? with
        | some tc =>
          match tc.ownedAttribute with
          | [] => .error "IndexError: list index out of range"
          | e0 :: _ => .ok [enumLine a e0 tc.ownedAttribute]
        | none => .error "IndexError: list index out of range"
      | none => .error "IndexError: list index out of range"
    else if a.type.isSome then
      let mult := if upperOf a == "1" then "one" else "many"
      let cmt := if is_reassignment m fuel ownerIdx a then "  # type: ignore[assignment]" else ""
      .ok [pyStr a.name ++ ": relation_" ++ mult ++ "[" ++ typeName m a ++ "]" ++ cmt]
    else
      .error (pyStr a.name ++ ": None can not be written; owner=" ++ cname)

/-- Concatenating fallible per-element emission over a list. -/
def mapMList (f : α → Except String (List β)) : List α → Except String (List β)
  | [] => .ok []
  | a :: rest =>
    match f a with
    | .error e => .error e
    | .ok ls =>
      match mapMList f rest with
      | .error e => .error e
      | .ok ls2 => .ok (ls ++ ls2)

/-- The operation part of source `variables`: overridden operations yield a
typed line, the rest only log a warning. -/
def variableOpLines (ov : Option Overrides) (cname : String) (c : UMLClass) : List String :=
  (insertionSortBy (fun x y => strLe (x.getD "") (y.getD ""))
      c.ownedOperation).filterMap
    (fun o =>
      let full_name := cname ++ "." ++ pyStr o
      if hasOverrideOpt ov full_name then some (pyStr o ++ ": " ++ getTypeOpt ov full_name)
      else none)

/-- Source `variables` (that identifier is reserved in Lean): property lines
for the owned attributes sorted by name, followed by typed lines for
overridden operations. -/
def variablesOf (m : Model) (fuel : Nat) (ov : Option Overrides) (ci : Nat) :
    Except String (List String) :=
  match m.classes[ci]? with
  | none => .error "unknown class"
  | some c =>
    let attrs := insertionSortBy (fun x y => strLe (nameKey x) (nameKey y)) c.ownedAttribute
    match mapMList (variableLinesFor m fuel ov ci c.name) attrs with
    | .error e => .error e
    | .ok ls => .ok (ls ++ variableOpLines ov c.name c)

/-- The skip condition of source `associations` and `subsets`: untyped,
simple-typed, enumeration-typed or extension-end attributes produce nothing. -/
def assocSkip (m : Model) (fuel : Nat) (a : Property) : Bool :=
  match a.type with
  | none => true
  | some ti => is_simple_type m fuel ti || is_enumeration_ref m (some ti) || is_extension_end a

/-- The redefinition statement of source `associations`. -/
def redefLine (m : Model) (cname : String) (a : Property) : String :=
  cname ++ "." ++ pyStr a.name ++ " = redefine(" ++ cname ++ ", \"" ++ pyStr a.name
    ++ "\", " ++ typeName m a ++ ", " ++ pyStr (redefines a) ++ ")"

/-- The derived-union statement of source `associations`. -/
def derivedUnionLine (m : Model) (cname : String) (a : Property) : String :=
  cname ++ "." ++ pyStr a.name ++ " = derivedunion(\"" ++ pyStr a.name ++ "\", "
    ++ typeName m a ++ lower a ++ upper a ++ ")"

/-- The plain association statement of source `associations`. -/
def associationLine (m : Model) (cname : String) (a : Property) : String :=
  cname ++ "." ++ pyStr a.name ++ " = association(\"" ++ pyStr a.name ++ "\", "
    ++ typeName m a ++ lower a ++ upper a ++ composite a ++ opposite a ++ ")"

/-- One attribute's contribution to source `associations`: a pair of the
immediately yielded lines and the deferred redefinition lines, following the
source's branch order (override, skip, redefinition, derived union, the
fatal unnamed-attribute error, plain association). -/
def assocAttrStep (m : Model) (fuel : Nat) (ov : Option Overrides) (cname : String)
    (a : Property) : Except String (List String × List String) :=
  let full_name := cname ++ "." ++ pyStr a.name
  if hasOverrideOpt ov full_name then .ok ([getOverrideOpt ov full_name], [])
  else if assocSkip m fuel a then .ok ([], [])
  else if pyTruthy (redefines a) then .ok ([], [redefLine m cname a])
  else if a.isDerived then .ok ([derivedUnionLine m cname a], [])
  else if !pyTruthy a.name then .error ("Unnamed attribute: " ++ full_name)
  else .ok ([associationLine m cname a], [])

/-- Accumulated `associations` emission over a list of attributes: the main
lines in attribute order and the collected redefinition statements. -/
def associationsAcc (m : Model) (fuel : Nat) (ov : Option Overrides) (cname : String) :
    List Property → Except String (List String × List String)
  | [] => .ok ([], [])
  | a :: rest =>
    match assocAttrStep m fuel ov cname a with
    | .error e => .error e
    | .ok (ms, rs) =>
      match associationsAcc m fuel ov cname rest with
      | .error e => .error e
      | .ok (ms2, rs2) => .ok (ms ++ ms2, rs ++ rs2)

/-- The association block of one class: the immediate statements followed by
the collected redefinition statements. -/
def associationsOfClass (m : Model) (fuel : Nat) (ov : Option Overrides) (cname : String)
    (attrs : List Property) : Except String (List String) :=
  match associationsAcc m fuel ov cname attrs with
  | .error e => .error e
  | .ok (ms, rs) => .ok (ms ++ rs)

/-- Source `associations`: the per-attribute statements with every collected
redefinition statement deferred to the end of the class's block. -/
def associations (m : Model) (fuel : Nat) (ov : Option Overrides) (ci : Nat) :
    Except String (List String) :=
  match m.classes[ci]? with
  | none => .error "unknown class"
  | some c => associationsOfClass m fuel ov c.name c.ownedAttribute

/-- Source `operations`: overridden operations are emitted verbatim. -/
def operations (ov : Option Overrides) (c : UMLClass) : List String :=
  (insertionSortBy (fun x y => strLe (x.getD "") (y.getD ""))
      c.ownedOperation).filterMap
    (fun o =>
      let full_name := c.name ++ "." ++ pyStr o
      if hasOverrideOpt ov full_name then some (getOverrideOpt ov full_name) else none)

/-- Source `in_super_model`: the first class of the first supermodel with a
matching name that is neither profile-scoped nor an enumeration; the result
carries the package label, the supermodel and the class index. -/
def in_super_model (fuel : Nat) (name : String) (sms : List (String × Model)) :
    Option (String × Model × Nat) :=
  sms.findSome? (fun ps =>
    (List.range ps.2.classes.length).findSome? (fun cj =>
      match ps.2.classes[cj]? with
      | some cls =>
        if cls.name == name && !(is_in_profile ps.2 fuel cls || is_enumeration_cls cls)
        then some (ps.1, ps.2, cj) else none
      | none => none))

/-- Source `attribute` (that identifier is reserved in Lean): look up the
named feature among a class's owned attributes, then transitively up its
bases, then in the supermodels; the result carries the package label (when
found via a supermodel) and the owning class's name with the property. -/
def attributeLookup (sms : List (String × Model)) (name : String) :
    Nat → Model → Nat → Option String × Option (String × Property)
  | 0, _, _ => (none, none)
  | fuel + 1, m, ci =>
    match m.classes[ci]? with
    | none => (none, none)
    | some c =>
      match c.ownedAttribute.find? (fun a => a.name == some name) with
      | some a => (none, some (c.name, a))
      | none =>
        match (bases m ci).findSome? (fun b =>
            match attributeLookup sms name fuel m b with
            | (pkg, some hit) => some (pkg, hit)
            | _ => none) with
        | some (pkg, hit) => (pkg, some hit)
        | none =>
          match in_super_model fuel c.name sms with
          | some (pkg, sm, cj) => (some pkg, (attributeLookup [] name fuel sm cj).2)
          | none => (none, none)

/-- Source `subsets`: for every non-skipped attribute carrying a `subsets`
stereotype slot, resolve each comma-separated target; targets that are
derived unions produce a registration line (preceded by an import line when
found via a supermodel), the rest only log warnings. -/
def subsets (m : Model) (fuel : Nat) (ci : Nat) (sms : List (String × Model)) : List String :=
  match m.classes[ci]? with
  | none => []
  | some c =>
    c.ownedAttribute.flatMap (fun a =>
      if assocSkip m fuel a then []
      else
        a.slots.flatMap (fun slot =>
          if slot.1 == "subsets" then
            let full_name := c.name ++ "." ++ pyStr a.name
            (strSplitComma slot.2).flatMap (fun value =>
              match attributeLookup sms (strTrim value) fuel m ci with
              | (pkg, some (ownerName, d)) =>
                if d.isDerived then
                  (if pyTruthy pkg then ["from " ++ pyStr pkg ++ " import " ++ ownerName]
                   else [])
                    ++ [ownerName ++ "." ++ pyStr d.name ++ ".add(" ++ full_name
                        ++ ")  # type: ignore[attr-defined]"]
                else []
              | _ => [])
          else []))

/-- The header comment block the coder emits first, as one multi-line string. -/
def header : String :=
  "# This file is generated by coder.py. DO NOT EDIT!\n"
    ++ "# isort: skip_file\n"
    ++ "# flake8: noqa F401,F811\n"
    ++ "# fmt: off\n\n"
    ++ "from __future__ import annotations\n\n"
    ++ "from gaphor.core.modeling.properties import (\n"
    ++ "    association,\n"
    ++ "    attribute as _attribute,\n"
    ++ "    derived,\n"
    ++ "    derivedunion,\n"
    ++ "    enumeration as _enumeration,\n"
    ++ "    redefine,\n"
    ++ "    relation_many,\n"
    ++ "    relation_one,\n"
    ++ ")\n"

/-- The class selection of source `coder`: every class of the model that is
not an enumeration, a simple type, profile-scoped or a tilde type. -/
def coderSelect (m : Model) (fuel : Nat) : List Nat :=
  (List.range m.classes.length).filter (fun ci =>
    match m.classes[ci]? with
    | some c =>
      !(is_enumeration_cls c || is_simple_type m fuel ci || is_in_profile m fuel c
          || is_tilde_type c)
    | none => false)

/-- One class of the declaration loop of source `coder`: override text, or a
supermodel import (also recorded for deduplication), or the class
declaration with its property block. -/
def coderDeclOne (m : Model) (fuel : Nat) (sms : List (String × Model)) (ov : Option Overrides)
    (ci : Nat) : Except String (List String × List String) :=
  match m.classes[ci]? with
  | none => .error "unknown class"
  | some c =>
    if hasOverrideOpt ov c.name then .ok ([getOverrideOpt ov c.name], [])
    else
      match in_super_model fuel c.name sms with
      | some (pkg, sm, cj) =>
        let nm := match sm.classes[cj]? with | some cls => cls.name | none => c.name
        let line := "from " ++ pkg ++ " import " ++ nm
        .ok ([line], [line])
      | none =>
        match variablesOf m fuel ov ci with
        | .error e => .error e
        | .ok props =>
          let body := if props.isEmpty then ["    pass"] else props.map (fun p => "    " ++ p)
          .ok (class_declaration m ci :: body ++ ["", ""], [])

/-- The declaration loop of source `coder` over the ordered classes,
collecting emitted lines and recorded import lines. -/
def coderDecls (m : Model) (fuel : Nat) (sms : List (String × Model)) (ov : Option Overrides) :
    List Nat → Except String (List String × List String)
  | [] => .ok ([], [])
  | ci :: rest =>
    match coderDeclOne m fuel sms ov ci with
    | .error e => .error e
    | .ok (ls, imps) =>
      match coderDecls m fuel sms ov rest with
      | .error e => .error e
      | .ok (ls2, imps2) => .ok (ls ++ ls2, imps ++ imps2)

/-- The import deduplication of source `coder`'s final loop: a `from ` line
is dropped when already imported and always recorded; other lines pass. -/
def dedupImports : List String → List String → List String × List String
  | [], imp => ([], imp)
  | l :: rest, imp =>
    if strStartsWith l "from " then
      let keep := if l ∈ imp then [] else [l]
      let (ks, imp2) := dedupImports rest (l :: imp)
      (keep ++ ks, imp2)
    else
      let (ks, imp2) := dedupImports rest imp
      (l :: ks, imp2)

/-- The association/subsets loop of source `coder`. -/
def coderAssocs (m : Model) (fuel : Nat) (sms : List (String × Model)) (ov : Option Overrides) :
    List Nat → List String → Except String (List String)
  | [], _ => .ok []
  | ci :: rest, imp =>
    match associations m fuel ov ci with
    | .error e => .error e
    | .ok als =>
      let (sls, imp2) := dedupImports (subsets m fuel ci sms) imp
      match coderAssocs m fuel sms ov rest imp2 with
      | .error e => .error e
      | .ok more => .ok (als ++ sls ++ more)

/-- Source `coder`: the full generated line sequence — header, optional
overrides header, ordered class declarations, operation overrides, a blank
separator, and the association/subsets statements. -/
def coder (m : Model) (fuel : Nat) (sms : List (String × Model)) (ov : Option Overrides) :
    Except String (List String) :=
  match order_classes (bases m) fuel (coderSelect m fuel) with
  | none => .error "order_classes: out of fuel"
  | some classes =>
    let headerLines :=
      [header] ++ (match ov with
        | some o => if pyTruthy o.header then [pyStr o.header] else []
        | none => [])
    match coderDecls m fuel sms ov classes with
    | .error e => .error e
    | .ok (declLines, imps) =>
      let opLines := classes.flatMap (fun ci =>
        match m.classes[ci]? with
        | some c => operations ov c
        | none => [])
      match coderAssocs m fuel sms ov classes imps with
      | .error e => .error e
      | .ok assocLines => .ok (headerLines ++ declLines ++ opLines ++ [""] ++ assocLines)

/-- The primitive-alias canonicalization and named-type lookup step of source
`resolve_attribute_type_values`. -/
def resolveStep1 (m : Model) (p : Property) : Property :=
  match p.typeValue with
  | some tv =>
    if tv ∈ ["String", "str", "object"] then { p with typeValue := some "str" }
    else if tv ∈ ["Integer", "int", "Boolean", "bool", "UnlimitedNatural"] then
      { p with typeValue := some "int" }
    else
      match m.classes.findIdx? (fun c => c.name == tv) with
      | some ci => { p with type := some ci, typeValue := none }
      | none => p
  | none => p

/-- The simple-type collapse step of source `resolve_attribute_type_values`:
a property whose type node is a simple type is rewritten to the primitive
`"str"` alias and loses the node reference. -/
def resolveStep2 (m : Model) (fuel : Nat) (p : Property) : Property :=
  match p.type with
  | some ci =>
    if is_simple_type m fuel ci then { p with typeValue := some "str", type := none } else p
  | none => p

/-- The loop body of source `resolve_attribute_type_values` for one property:
both resolution steps followed by the fatal unresolvable-type check. -/
def resolveProp (m : Model) (fuel : Nat) (p : Property) : Except String Property :=
  let q := resolveStep2 m fuel (resolveStep1 m p)
  if q.type.isSome || q.typeValue ∈ [some "str", some "int", none] then .ok q
  else .error ("Property value type " ++ pyStr q.typeValue ++ " can not be found")

/-- Source `resolve_attribute_type_values` over every property of the model. -/
def resolve_attribute_type_values (m : Model) (fuel : Nat) : Except String Model :=
  match mapMList (fun c =>
      (mapMList (fun a => (resolveProp m fuel a).map (fun q => [q])) c.ownedAttribute).map
        (fun attrs => [{ c with ownedAttribute := attrs }])) m.classes with
  | .error e => .error e
  | .ok cs => .ok { m with classes := cs }

/-! ### Invariants of the depth-first class ordering -/

/-- Inversion of a successful `goList` run on an empty worklist. -/
theorem goList_nil_inv (rec : Nat → List Nat → Option (List Nat × List Nat))
    (seen out seen2 : List Nat) (h : goList rec [] seen = some (out, seen2)) :
    out = [] ∧ seen2 = seen := by
  simp only [goList, Option.some.injEq, Prod.mk.injEq] at h
  exact ⟨h.1.symm, h.2.symm⟩

/-- Inversion of a successful `goList` run on an unseen head class: the
descent on the head succeeds, the run continues on the tail with the head
recorded, and the output splits accordingly. -/
theorem goList_cons_inv (rec : Nat → List Nat → Option (List Nat × List Nat))
    (c : Nat) (rest seen out seen2 : List Nat) (hc : c ∉ seen)
    (h : goList rec (c :: rest) seen = some (out, seen2)) :
    ∃ o1 seen1 o2, rec c seen = some (o1, seen1) ∧
      goList rec rest (c :: seen1) = some (o2, seen2) ∧ out = o1 ++ c :: o2 := by
  rw [goList, if_neg hc] at h
  split at h
  · exact absurd h (by simp)
  · rename_i o1 seen1 hrc
    split at h
    · exact absurd h (by simp)
    · rename_i o2 s2 hg
      simp only [Option.some.injEq, Prod.mk.injEq] at h
      obtain ⟨ho, hs⟩ := h
      subst hs
      exact ⟨o1, seen1, o2, hrc, hg, ho.symm⟩

/-- A seen head class is skipped by `goList`. -/
theorem goList_cons_skip (rec : Nat → List Nat → Option (List Nat × List Nat))
    (c : Nat) (rest seen : List Nat) (hc : c ∈ seen) :
    goList rec (c :: rest) seen = goList rec rest seen := by
  rw [goList, if_pos hc]

/-- Successful `goList` runs extend the seen-list by exactly the reversed
output, provided the descent function does. -/
theorem goList_seen_eq (rec : Nat → List Nat → Option (List Nat × List Nat))
    (hrec : ∀ c s out s2, rec c s = some (out, s2) → s2 = out.reverse ++ s) :
    ∀ l seen out seen2, goList rec l seen = some (out, seen2) →
      seen2 = out.reverse ++ seen := by
  intro l
  induction l with
  | nil =>
    intro seen out seen2 h
    obtain ⟨h1, h2⟩ := goList_nil_inv rec seen out seen2 h
    subst h1; subst h2; simp
  | cons c rest ih =>
    intro seen out seen2 h
    by_cases hc : c ∈ seen
    · rw [goList_cons_skip rec c rest seen hc] at h
      exact ih seen out seen2 h
    · obtain ⟨o1, seen1, o2, hrc, hg, ho⟩ := goList_cons_inv rec c rest seen out seen2 hc h
      subst ho
      have e1 := hrec c seen o1 seen1 hrc
      have e2 := ih (c :: seen1) o2 seen2 hg
      subst e1; subst e2
      simp [List.reverse_append]

/-- Successful `orderRun` runs extend the seen-list by exactly the reversed
output. -/
theorem orderRun_seen_eq (bs : Nat → List Nat) :
    ∀ fuel l seen out seen2, orderRun bs fuel l seen = some (out, seen2) →
      seen2 = out.reverse ++ seen := by
  intro fuel
  induction fuel with
  | zero => intro l seen out seen2 h; exact absurd h (by simp [orderRun])
  | succ fuel ih =>
    intro l seen out seen2 h
    rw [orderRun] at h
    exact goList_seen_eq _ (fun c s o s2 hr => ih (bs c) s o s2 hr) l seen out seen2 h

/-- After a successful `goList` run every element of the worklist is in the
final seen-list. -/
theorem goList_mem (rec : Nat → List Nat → Option (List Nat × List Nat))
    (hrec : ∀ c s out s2, rec c s = some (out, s2) → s2 = out.reverse ++ s) :
    ∀ l seen out seen2, goList rec l seen = some (out, seen2) →
      ∀ b ∈ l, b ∈ seen2 := by
  intro l
  induction l with
  | nil => intro seen out seen2 _ b hb; exact absurd hb (by simp)
  | cons c rest ih =>
    intro seen out seen2 h b hb
    by_cases hc : c ∈ seen
    · rw [goList_cons_skip rec c rest seen hc] at h
      rcases List.mem_cons.mp hb with hb | hb
      · subst hb
        have := goList_seen_eq rec hrec rest seen out seen2 h
        subst this
        exact List.mem_append_right _ hc
      · exact ih seen out seen2 h b hb
    · obtain ⟨o1, seen1, o2, hrc, hg, _⟩ := goList_cons_inv rec c rest seen out seen2 hc h
      rcases List.mem_cons.mp hb with hb | hb
      · subst hb
        have hsub := goList_seen_eq rec hrec rest (b :: seen1) o2 seen2 hg
        subst hsub
        exact List.mem_append_right _ (List.mem_cons_self _ _)
      · exact ih (c :: seen1) o2 seen2 hg b hb

/-- After a successful `orderRun` every element of the worklist is in the
final seen-list. -/
theorem orderRun_mem (bs : Nat → List Nat) :
    ∀ fuel l seen out seen2, orderRun bs fuel l seen = some (out, seen2) →
      ∀ b ∈ l, b ∈ seen2 := by
  intro fuel l seen out seen2 h
  cases fuel with
  | zero => exact absurd h (by simp [orderRun])
  | succ fuel =>
    rw [orderRun] at h
    exact goList_mem _ (fun c s o s2 hr => orderRun_seen_eq bs fuel (bs c) s o s2 hr)
      l seen out seen2 h

/-- Every class emitted by a successful `goList` run is rank-bounded by some
class of the worklist, provided the descent emits only classes of strictly
smaller rank. -/
theorem goList_rank (rec : Nat → List Nat → Option (List Nat × List Nat)) (rank : Nat → Nat)
    (hrec : ∀ c s out s2, rec c s = some (out, s2) → ∀ x ∈ out, rank x < rank c) :
    ∀ l seen out seen2, goList rec l seen = some (out, seen2) →
      ∀ x ∈ out, ∃ b ∈ l, rank x ≤ rank b := by
  intro l
  induction l with
  | nil =>
    intro seen out seen2 h x hx
    obtain ⟨h1, _⟩ := goList_nil_inv rec seen out seen2 h
    subst h1
    exact absurd hx (by simp)
  | cons c rest ih =>
    intro seen out seen2 h x hx
    by_cases hc : c ∈ seen
    · rw [goList_cons_skip rec c rest seen hc] at h
      obtain ⟨b, hb, hrk⟩ := ih seen out seen2 h x hx
      exact ⟨b, List.mem_cons_of_mem _ hb, hrk⟩
    · obtain ⟨o1, seen1, o2, hrc, hg, ho⟩ := goList_cons_inv rec c rest seen out seen2 hc h
      subst ho
      rcases List.mem_append.mp hx with hx | hx
      · exact ⟨c, List.mem_cons_self _ _, Nat.le_of_lt (hrec c seen o1 seen1 hrc x hx)⟩
      · rcases List.mem_cons.mp hx with hx | hx
        · subst hx; exact ⟨x, List.mem_cons_self _ _, Nat.le_refl _⟩
        · obtain ⟨b, hb, hrk⟩ := ih (c :: seen1) o2 seen2 hg x hx
          exact ⟨b, List.mem_cons_of_mem _ hb, hrk⟩

/-- Every class emitted by a successful `orderRun` is rank-bounded by some
class of the worklist, provided ranks strictly decrease along base edges. -/
theorem orderRun_rank (bs : Nat → List Nat) (rank : Nat → Nat)
    (Hrank : ∀ c b, b ∈ bs c → rank b < rank c) :
    ∀ fuel l seen out seen2, orderRun bs fuel l seen = some (out, seen2) →
      ∀ x ∈ out, ∃ b ∈ l, rank x ≤ rank b := by
  intro fuel
  induction fuel with
  | zero => intro l seen out seen2 h; exact absurd h (by simp [orderRun])
  | succ fuel ih =>
    intro l seen out seen2 h
    rw [orderRun] at h
    refine goList_rank _ rank ?_ l seen out seen2 h
    intro c s o s2 hr x hx
    obtain ⟨b, hb, hrk⟩ := ih (bs c) s o s2 hr x hx
    exact Nat.lt_of_le_of_lt hrk (Hrank c b hb)

/-- Successful `goList` runs preserve distinctness of the seen-list when the
descent preserves it and only emits classes of strictly smaller rank. -/
theorem goList_nodup (rec : Nat → List Nat → Option (List Nat × List Nat)) (rank : Nat → Nat)
    (hrec_seen : ∀ c s out s2, rec c s = some (out, s2) → s2 = out.reverse ++ s)
    (hrec_rank : ∀ c s out s2, rec c s = some (out, s2) → ∀ x ∈ out, rank x < rank c)
    (hrec_nodup : ∀ c s out s2, rec c s = some (out, s2) → s.Nodup → s2.Nodup) :
    ∀ l seen out seen2, goList rec l seen = some (out, seen2) →
      seen.Nodup → seen2.Nodup := by
  intro l
  induction l with
  | nil =>
    intro seen out seen2 h hnd
    obtain ⟨_, h2⟩ := goList_nil_inv rec seen out seen2 h
    subst h2; exact hnd
  | cons c rest ih =>
    intro seen out seen2 h hnd
    by_cases hc : c ∈ seen
    · rw [goList_cons_skip rec c rest seen hc] at h
      exact ih seen out seen2 h hnd
    · obtain ⟨o1, seen1, o2, hrc, hg, _⟩ := goList_cons_inv rec c rest seen out seen2 hc h
      have hnd1 : seen1.Nodup := hrec_nodup c seen o1 seen1 hrc hnd
      have hcseen1 : c ∉ seen1 := by
        intro hmem
        rw [hrec_seen c seen o1 seen1 hrc] at hmem
        rcases List.mem_append.mp hmem with hm | hm
        · exact absurd (hrec_rank c seen o1 seen1 hrc c (List.mem_reverse.mp hm))
            (Nat.lt_irrefl _)
        · exact hc hm
      exact ih (c :: seen1) o2 seen2 hg (List.nodup_cons.mpr ⟨hcseen1, hnd1⟩)

/-- Successful `orderRun` runs preserve distinctness of the seen-list when
ranks strictly decrease along base edges. -/
theorem orderRun_nodup (bs : Nat → List Nat) (rank : Nat → Nat)
    (Hrank : ∀ c b, b ∈ bs c → rank b < rank c) :
    ∀ fuel l seen out seen2, orderRun bs fuel l seen = some (out, seen2) →
      seen.Nodup → seen2.Nodup := by
  intro fuel
  induction fuel with
  | zero => intro l seen out seen2 h; exact absurd h (by simp [orderRun])
  | succ fuel ih =>
    intro l seen out seen2 h
    rw [orderRun] at h
    refine goList_nodup _ rank
      (fun c s o s2 hr => orderRun_seen_eq bs fuel (bs c) s o s2 hr) ?_
      (fun c s o s2 hr => ih (bs c) s o s2 hr) l seen out seen2 h
    intro c s o s2 hr x hx
    obtain ⟨b, hb, hrk⟩ := orderRun_rank bs rank Hrank fuel (bs c) s o s2 hr x hx
    exact Nat.lt_of_le_of_lt hrk (Hrank c b hb)

/-- The seen-list invariant of the ordering: every recorded class has all of
its direct bases recorded later in the (reverse-chronological) seen-list. -/
def ChronOK (bs : Nat → List Nat) (s : List Nat) : Prop :=
  ∀ l1 x l2, s = l1 ++ x :: l2 → ∀ b ∈ bs x, b ∈ l2

/-- `ChronOK` is preserved by recording a class whose bases are all already
recorded. -/
theorem chronOK_cons (bs : Nat → List Nat) (s : List Nat) (c : Nat)
    (h : ChronOK bs s) (hb : ∀ b ∈ bs c, b ∈ s) : ChronOK bs (c :: s) := by
  intro l1 x l2 he b hbb
  cases l1 with
  | nil =>
    simp only [List.nil_append, List.cons.injEq] at he
    obtain ⟨h1, h2⟩ := he
    subst h1; subst h2
    exact hb b hbb
  | cons a l1' =>
    simp only [List.cons_append, List.cons.injEq] at he
    obtain ⟨_, h2⟩ := he
    exact h l1' x l2 h2 b hbb

/-- Successful `goList` runs preserve `ChronOK` when the descent preserves it
and records all bases of the class it descends from. -/
theorem goList_chron (rec : Nat → List Nat → Option (List Nat × List Nat))
    (bs : Nat → List Nat)
    (hrec_chron : ∀ c s out s2, rec c s = some (out, s2) → ChronOK bs s → ChronOK bs s2)
    (hrec_bases : ∀ c s out s2, rec c s = some (out, s2) → ∀ b ∈ bs c, b ∈ s2) :
    ∀ l seen out seen2, goList rec l seen = some (out, seen2) →
      ChronOK bs seen → ChronOK bs seen2 := by
  intro l
  induction l with
  | nil =>
    intro seen out seen2 h hch
    obtain ⟨_, h2⟩ := goList_nil_inv rec seen out seen2 h
    subst h2; exact hch
  | cons c rest ih =>
    intro seen out seen2 h hch
    by_cases hc : c ∈ seen
    · rw [goList_cons_skip rec c rest seen hc] at h
      exact ih seen out seen2 h hch
    · obtain ⟨o1, seen1, o2, hrc, hg, _⟩ := goList_cons_inv rec c rest seen out seen2 hc h
      have hch1 : ChronOK bs seen1 := hrec_chron c seen o1 seen1 hrc hch
      have hb1 : ∀ b ∈ bs c, b ∈ seen1 := hrec_bases c seen o1 seen1 hrc
      exact ih (c :: seen1) o2 seen2 hg (chronOK_cons bs seen1 c hch1 hb1)

/-- Successful `orderRun` runs preserve `ChronOK`. -/
theorem orderRun_chron (bs : Nat → List Nat) :
    ∀ fuel l seen out seen2, orderRun bs fuel l seen = some (out, seen2) →
      ChronOK bs seen → ChronOK bs seen2 := by
  intro fuel
  induction fuel with
  | zero => intro l seen out seen2 h; exact absurd h (by simp [orderRun])
  | succ fuel ih =>
    intro l seen out seen2 h
    rw [orderRun] at h
    exact goList_chron _ bs (fun c s o s2 hr => ih (bs c) s o s2 hr)
      (fun c s o s2 hr => orderRun_mem bs fuel (bs c) s o s2 hr)
      l seen out seen2 h

/-- Specification of `order_classes` on a ranked (hence acyclic) base graph:
every input class appears in the output, the output has no duplicates, and
every direct base of an emitted class appears strictly before it. -/
theorem order_classes_spec (bs : Nat → List Nat) (rank : Nat → Nat)
    (Hrank : ∀ c b, b ∈ bs c → rank b < rank c)
    (fuel : Nat) (classes out : List Nat)
    (h : order_classes bs fuel classes = some out) :
    (∀ c ∈ classes, c ∈ out) ∧ out.Nodup ∧
      (∀ l1 x l2, out = l1 ++ x :: l2 → ∀ b ∈ bs x, b ∈ l1) := by
  unfold order_classes at h
  cases hrun : orderRun bs fuel classes [] with
  | none => rw [hrun] at h; exact absurd h (by simp)
  | some p =>
    obtain ⟨out', seen2⟩ := p
    rw [hrun] at h
    simp only [Option.map_some', Option.some.injEq] at h
    subst h
    have hseen : seen2 = out'.reverse := by
      have := orderRun_seen_eq bs fuel classes [] out' seen2 hrun
      simpa using this
    refine ⟨?_, ?_, ?_⟩
    · intro c hc
      have := orderRun_mem bs fuel classes [] out' seen2 hrun c hc
      rw [hseen] at this
      exact List.mem_reverse.mp this
    · have := orderRun_nodup bs rank Hrank fuel classes [] out' seen2 hrun List.nodup_nil
      rw [hseen] at this
      exact List.nodup_reverse.mp this
    · intro l1 x l2 he b hb
      have hch : ChronOK bs seen2 := by
        refine orderRun_chron bs fuel classes [] out' seen2 hrun ?_
        intro l1' x' l2' he'
        exact absurd he' (by simp)
      rw [hseen] at hch
      have hrev : out'.reverse = l2.reverse ++ x :: l1.reverse := by
        rw [he]; simp
      have := hch l2.reverse x l1.reverse hrev b hb
      exact List.mem_reverse.mp this

/-- Direct predecessor ordering extends to the transitive closure: if every
direct base of an emitted class appears strictly before it, so does every
transitive base. -/
theorem basesBefore_trans (bs : Nat → List Nat) (out : List Nat)
    (hdir : ∀ l1 x l2, out = l1 ++ x :: l2 → ∀ b ∈ bs x, b ∈ l1) :
    ∀ x b, Relation.TransGen (fun u v => u ∈ bs v) b x →
      ∀ l1 l2, out = l1 ++ x :: l2 → b ∈ l1 := by
  intro x b h
  induction h with
  | single hr => intro l1 l2 he; exact hdir l1 _ l2 he b hr
  | @tail m y _ hr ih =>
    intro l1 l2 he
    have hm : m ∈ l1 := hdir l1 y l2 he m hr
    obtain ⟨s, t, hst⟩ := List.append_of_mem hm
    subst hst
    have he2 : out = s ++ m :: (t ++ y :: l2) := by rw [he]; simp
    exact List.mem_append_left _ (ih s (t ++ y :: l2) he2)

/-- `goList` succeeds whenever every descent from a worklist element succeeds. -/
theorem goList_isSome (rec : Nat → List Nat → Option (List Nat × List Nat)) :
    ∀ l, (∀ c ∈ l, ∀ s, (rec c s).isSome) → ∀ seen, (goList rec l seen).isSome := by
  intro l
  induction l with
  | nil => intro _ seen; simp [goList]
  | cons c rest ih =>
    intro hl seen
    by_cases hc : c ∈ seen
    · rw [goList_cons_skip rec c rest seen hc]
      exact ih (fun d hd s => hl d (List.mem_cons_of_mem _ hd) s) seen
    · rw [goList, if_neg hc]
      have h1 := hl c (List.mem_cons_self _ _) seen
      cases hrc : rec c seen with
      | none => rw [hrc] at h1; exact absurd h1 (by simp)
      | some p =>
        obtain ⟨o1, seen1⟩ := p
        have h2 := ih (fun d hd s => hl d (List.mem_cons_of_mem _ hd) s) (c :: seen1)
        cases hg : goList rec rest (c :: seen1) with
        | none => rw [hg] at h2; exact absurd h2 (by simp)
        | some q =>
          obtain ⟨o2, seen2⟩ := q
          simp [hg]

/-- `orderRun` succeeds on any worklist whose ranks are strictly below the
fuel, provided ranks strictly decrease along base edges. -/
theorem orderRun_isSome (bs : Nat → List Nat) (rank : Nat → Nat)
    (Hrank : ∀ c b, b ∈ bs c → rank b < rank c) :
    ∀ fuel, 0 < fuel → ∀ l, (∀ c ∈ l, rank c + 1 < fuel) →
      ∀ seen, (orderRun bs fuel l seen).isSome := by
  intro fuel
  induction fuel with
  | zero => intro h; exact absurd h (by simp)
  | succ fuel ih =>
    intro _ l hl seen
    rw [orderRun]
    refine goList_isSome _ l ?_ seen
    intro c hc s
    have hcf : rank c + 1 < fuel + 1 := hl c hc
    have hpos : 0 < fuel := by omega
    refine ih hpos (bs c) ?_ s
    intro b hb
    have := Hrank c b hb
    omega

/-! ### Claim theorems for the class ordering -/

/-- C1: on a finite acyclic collection of classes (acyclicity witnessed by a
rank function strictly decreasing along `bases` edges), every run of
`order_classes` that completes yields a sequence in which every input class
appears exactly once — even when reachable via several derivation paths —
and every transitive generalization base of an emitted class appears
strictly before it. -/
theorem claim_C1_order_classes (m : Model) (rank : Nat → Nat)
    (Hrank : ∀ c b, b ∈ bases m c → rank b < rank c)
    (fuel : Nat) (classes out : List Nat)
    (h : order_classes (bases m) fuel classes = some out) :
    (∀ c ∈ classes, out.count c = 1) ∧ out.Nodup ∧
      (∀ l1 x l2, out = l1 ++ x :: l2 →
        ∀ b, Relation.TransGen (fun u v => u ∈ bases m v) b x → b ∈ l1) := by
  obtain ⟨hmem, hnd, hdir⟩ := order_classes_spec (bases m) rank Hrank fuel classes out h
  refine ⟨fun c hc => List.count_eq_one_of_mem hnd (hmem c hc), hnd, ?_⟩
  intro l1 x l2 he b htg
  exact basesBefore_trans (bases m) out hdir x b htg l1 l2 he

/-- Witness model for the ordering claims: a diamond `D ⊲ B, C ⊲ A`, so `D`
reaches `A` via two derivation paths. -/
def mW : Model := {
  classes := [
    { name := "A", generalization := [], ownedAttribute := [], ownedOperation := [],
      appliedStereotypes := [], owningPackage := some 0 },
    { name := "B", generalization := [0], ownedAttribute := [], ownedOperation := [],
      appliedStereotypes := [], owningPackage := some 0 },
    { name := "C", generalization := [0], ownedAttribute := [], ownedOperation := [],
      appliedStereotypes := [], owningPackage := some 0 },
    { name := "D", generalization := [1, 2], ownedAttribute := [], ownedOperation := [],
      appliedStereotypes := [], owningPackage := some 0 }],
  packages := [{ name := "pkg", isProfile := false, owningPackage := none }] }

/-- The identity function ranks `mW`: every base edge goes to a smaller index. -/
theorem mW_rank : ∀ c b, b ∈ bases mW c → b < c := by
  intro c b hb
  match c with
  | 0 => simp [bases, mW] at hb
  | 1 => simp [bases, mW] at hb; omega
  | 2 => simp [bases, mW] at hb; omega
  | 3 => simp [bases, mW] at hb; rcases hb with h | h <;> omega
  | (n + 4) => simp [bases, mW] at hb

/-- Witness for C1 on the concrete diamond model. -/
theorem claim_C1_order_classes_witness :
    order_classes (bases mW) 9 [3, 1] = some [0, 1, 2, 3] ∧
      ((∀ c ∈ [3, 1], [0, 1, 2, 3].count c = 1) ∧ [0, 1, 2, 3].Nodup ∧
        (∀ l1 x l2, [0, 1, 2, 3] = l1 ++ x :: l2 →
          ∀ b, Relation.TransGen (fun u v => u ∈ bases mW v) b x → b ∈ l1)) :=
  ⟨by decide,
    claim_C1_order_classes mW (fun i => i) mW_rank 9 [3, 1] [0, 1, 2, 3] (by decide)⟩

/-- C10: on a model whose generalization graph extended with the synthetic
`baseClass` metaclass edges is acyclic (witnessed by a rank function),
`order_classes` terminates successfully — it yields a sequence — once the
fuel bounds the ranks of the input classes. -/
theorem claim_C10_order_classes_terminates (m : Model) (rank : Nat → Nat)
    (Hrank : ∀ c b, b ∈ bases m c → rank b < rank c)
    (fuel : Nat) (classes : List Nat) (hpos : 0 < fuel)
    (hbound : ∀ c ∈ classes, rank c + 1 < fuel) :
    (order_classes (bases m) fuel classes).isSome = true := by
  unfold order_classes
  have h := orderRun_isSome (bases m) rank Hrank fuel hpos classes hbound []
  rcases Option.isSome_iff_exists.mp h with ⟨p, hp⟩
  rw [hp]
  rfl

/-- Witness for C10 on the concrete diamond model. -/
theorem claim_C10_order_classes_terminates_witness :
    0 < 9 ∧ (∀ c ∈ [3, 1], c + 1 < 9) ∧
      (order_classes (bases mW) 9 [3, 1]).isSome = true :=
  ⟨by decide, by decide,
    claim_C10_order_classes_terminates mW (fun i => i) mW_rank 9 [3, 1]
      (by decide) (by decide)⟩

/-! ### Claim theorems for the type resolver -/

/-- A resolved property whose canonical `typeValue` is a recognized primitive
alias passes the final check of `resolveProp`. -/
theorem resolveProp_ok_of_typeValue (m : Model) (fuel : Nat) (p : Property)
    (h : (resolveStep2 m fuel (resolveStep1 m p)).typeValue = some "str" ∨
         (resolveStep2 m fuel (resolveStep1 m p)).typeValue = some "int") :
    resolveProp m fuel p = .ok (resolveStep2 m fuel (resolveStep1 m p)) := by
  unfold resolveProp
  rcases h with h | h <;> simp [h]

/-- The simple-type collapse step never changes a property's `type` field
except to clear it, and turns the `typeValue` into `some "str"` exactly when
it fires. -/
theorem resolveStep2_typeValue (m : Model) (fuel : Nat) (p : Property) :
    (resolveStep2 m fuel p).typeValue = p.typeValue ∨
      (resolveStep2 m fuel p).typeValue = some "str" := by
  unfold resolveStep2
  cases hpt : p.type with
  | none => exact Or.inl rfl
  | some ci =>
    by_cases hsi : is_simple_type m fuel ci
    · simp [hsi]
    · simp [hsi]

/-- C2 (amended): a raw type string in `{"String","str","object"}` always
canonicalizes to `"str"`; a raw type string in
`{"Integer","int","Boolean","bool","UnlimitedNatural"}` canonicalizes to
`"int"` provided the property does not additionally carry a reference to a
simple-type class (in which case the simple-type collapse rewrites it to
`"str"`, see the counterexample). -/
theorem claim_C2_alias_resolution (m : Model) (fuel : Nat) (p : Property) (tv : String)
    (htv : p.typeValue = some tv) :
    (tv ∈ ["String", "str", "object"] →
      ∃ q, resolveProp m fuel p = .ok q ∧ q.typeValue = some "str") ∧
    ((tv ∈ ["Integer", "int", "Boolean", "bool", "UnlimitedNatural"] ∧
        (∀ ci, p.type = some ci → is_simple_type m fuel ci = false)) →
      ∃ q, resolveProp m fuel p = .ok q ∧ q.typeValue = some "int") := by
  constructor
  · intro hmem
    have h1 : resolveStep1 m p = { p with typeValue := some "str" } := by
      simp only [resolveStep1, htv]
      rw [if_pos hmem]
    have h2 : (resolveStep2 m fuel (resolveStep1 m p)).typeValue = some "str" := by
      rcases resolveStep2_typeValue m fuel (resolveStep1 m p) with h | h
      · rw [h, h1]
      · exact h
    exact ⟨_, resolveProp_ok_of_typeValue m fuel p (Or.inl h2), h2⟩
  · rintro ⟨hmem, hsimple⟩
    have hnotstr : tv ∉ ["String", "str", "object"] := by
      simp only [List.mem_cons, List.not_mem_nil, or_false] at hmem
      rcases hmem with h | h | h | h | h <;> subst h <;> decide
    have h1 : resolveStep1 m p = { p with typeValue := some "int" } := by
      simp only [resolveStep1, htv]
      rw [if_neg hnotstr, if_pos hmem]
    have h2 : (resolveStep2 m fuel (resolveStep1 m p)).typeValue = some "int" := by
      rw [h1]
      unfold resolveStep2
      cases hpt : p.type with
      | none => simp
      | some ci =>
        have := hsimple ci hpt
        simp [this]
    exact ⟨_, resolveProp_ok_of_typeValue m fuel p (Or.inr h2), h2⟩

/-- A blank property: every optional field of the embedding unset. -/
def blankProp : Property := {
  name := some "a", typeValue := none, type := none, isDerived := false,
  defaultValue := none, lowerValue := none, upperValue := none, aggregation := none,
  association := none, slots := [], opposite := none }

/-- A one-class model whose single class `S` is tagged `SimpleAttribute`. -/
def mSimple : Model := {
  classes := [
    { name := "S", generalization := [], ownedAttribute := [], ownedOperation := [],
      appliedStereotypes := ["SimpleAttribute"], owningPackage := some 0 }],
  packages := [{ name := "pkg", isProfile := false, owningPackage := none }] }

/-- Counterexample to C2 as stated: a property whose raw type string is the
alias `"Integer"` but which also references the simple-type class `S` is
resolved to canonical `"str"`, not `"int"` — the simple-type collapse step
overrides the alias mapping. -/
theorem claim_C2_counterexample :
    resolveProp mSimple 2 { blankProp with typeValue := some "Integer", type := some 0 } =
      .ok { blankProp with typeValue := some "str", type := none } ∧
      (some "str" : Option String) ≠ some "int" :=
  ⟨rfl, by decide⟩

/-- Witness for the amended C2 on a property with raw type `"Boolean"` and no
type-node reference, in a model with no matching class. -/
theorem claim_C2_alias_resolution_witness :
    ({ blankProp with typeValue := some "Boolean" } : Property).typeValue = some "Boolean" ∧
      (("Boolean" ∈ ["String", "str", "object"] →
        ∃ q, resolveProp mSimple 2 { blankProp with typeValue := some "Boolean" } = .ok q ∧
          q.typeValue = some "str") ∧
      (("Boolean" ∈ ["Integer", "int", "Boolean", "bool", "UnlimitedNatural"] ∧
          (∀ ci, ({ blankProp with typeValue := some "Boolean" } : Property).type = some ci →
            is_simple_type mSimple 2 ci = false)) →
        ∃ q, resolveProp mSimple 2 { blankProp with typeValue := some "Boolean" } = .ok q ∧
          q.typeValue = some "int")) :=
  ⟨rfl, claim_C2_alias_resolution mSimple 2 { blankProp with typeValue := some "Boolean" }
    "Boolean" rfl⟩

/-- A property already resolved to primitive `"str"` with no node reference
emits, absent overrides, either nothing (extension end or
unimplemented-derived skip) or exactly the primitive string `_attribute`
line — never a relation line. -/
theorem variableLinesFor_str_prop (m : Model) (f2 oIdx : Nat) (cname : String) (q : Property)
    (htv : q.typeValue = some "str") (hty : q.type = none) (d : String)
    (hdv : default_value cname q = .ok d) :
    variableLinesFor m f2 none oIdx cname q =
      .ok (if is_extension_end q then [] else if q.isDerived then []
           else [attrValueLine q d]) := by
  have e3 : pyTruthy (some "str") = true := by decide
  by_cases hee : is_extension_end q
  · simp [variableLinesFor, hee]
  · by_cases hder : q.isDerived
    · simp [variableLinesFor, hee, hder, hasOverrideOpt, hty]
    · simp [variableLinesFor, hee, hder, hasOverrideOpt, hty, htv, e3, hdv]

/-- C3: a property whose type resolves (after the name-resolution step) to a
class that is a simple type — directly or via an ancestor generalization —
is rewritten to the primitive `"str"` alias with the node reference removed,
and its default emitted property line is the primitive string attribute
line, never a relationship (`relation_`) property. -/
theorem claim_C3_simple_type_collapse (m : Model) (fuel f2 oIdx : Nat) (cname : String)
    (p : Property) (ci : Nat)
    (h1 : (resolveStep1 m p).type = some ci)
    (h2 : is_simple_type m fuel ci = true) :
    ∃ q d, resolveProp m fuel p = .ok q ∧ q.typeValue = some "str" ∧ q.type = none ∧
      default_value cname q = .ok d ∧
      variableLinesFor m f2 none oIdx cname q =
        .ok (if is_extension_end q then [] else if q.isDerived then []
             else [attrValueLine q d]) := by
  have hq : resolveStep2 m fuel (resolveStep1 m p) =
      { resolveStep1 m p with typeValue := some "str", type := none } := by
    simp [resolveStep2, h1, h2]
  have htv : (resolveStep2 m fuel (resolveStep1 m p)).typeValue = some "str" := by rw [hq]
  have hty : (resolveStep2 m fuel (resolveStep1 m p)).type = none := by rw [hq]
  obtain ⟨d, hdv⟩ :
      ∃ d, default_value cname (resolveStep2 m fuel (resolveStep1 m p)) = .ok d := by
    by_cases hd : pyTruthy (resolveStep2 m fuel (resolveStep1 m p)).defaultValue
    · refine ⟨", default=\""
        ++ pyStr (resolveStep2 m fuel (resolveStep1 m p)).defaultValue ++ "\"", ?_⟩
      have e1 : ((some "str" : Option String) == some "int") = false := by decide
      have e2 : ((some "str" : Option String) == some "str") = true := by decide
      simp [default_value, hd, htv, e1, e2]
    · exact ⟨"", by simp [default_value, hd]⟩
  exact ⟨_, d, resolveProp_ok_of_typeValue m fuel p (Or.inl htv), htv, hty, hdv,
    variableLinesFor_str_prop m f2 oIdx cname _ htv hty d hdv⟩

/-- Witness for C3: a property naming the simple-type class `S` resolves to
the primitive string attribute. -/
theorem claim_C3_simple_type_collapse_witness :
    (resolveStep1 mSimple { blankProp with typeValue := some "S" }).type = some 0 ∧
      is_simple_type mSimple 2 0 = true ∧
      (∃ q d, resolveProp mSimple 2 { blankProp with typeValue := some "S" } = .ok q ∧
        q.typeValue = some "str" ∧ q.type = none ∧
        default_value "X" q = .ok d ∧
        variableLinesFor mSimple 2 none 0 "X" q =
          .ok (if is_extension_end q then [] else if q.isDerived then []
               else [attrValueLine q d])) :=
  ⟨by decide, by decide,
    claim_C3_simple_type_collapse mSimple 2 2 0 "X"
      { blankProp with typeValue := some "S" } 0 (by decide) (by decide)⟩

/-- C4 (amended): after resolution the fatal unresolvable-type error is
raised exactly when the property has no type-node reference and its
`typeValue` is set but is neither `"str"` nor `"int"`; in particular a fully
untyped property (`typeValue` unset, no type node) passes without error. -/
theorem claim_C4_fatal_unresolvable (m : Model) (fuel : Nat) (p : Property) :
    (∃ e, resolveProp m fuel p = .error e) ↔
      ((resolveStep2 m fuel (resolveStep1 m p)).type = none ∧
        ∃ tv, (resolveStep2 m fuel (resolveStep1 m p)).typeValue = some tv ∧
          tv ≠ "str" ∧ tv ≠ "int") := by
  constructor
  · rintro ⟨e, he⟩
    by_cases hb : (((resolveStep2 m fuel (resolveStep1 m p)).type.isSome ||
        decide ((resolveStep2 m fuel (resolveStep1 m p)).typeValue ∈
          [some "str", some "int", none])) = true)
    · have hok : resolveProp m fuel p = .ok (resolveStep2 m fuel (resolveStep1 m p)) := by
        simp only [resolveProp]
        rw [if_pos hb]
      rw [hok] at he
      exact absurd he (by simp)
    · simp only [Bool.or_eq_true, decide_eq_true_eq, not_or] at hb
      obtain ⟨hc1, hc2⟩ := hb
      refine ⟨Option.not_isSome_iff_eq_none.mp hc1, ?_⟩
      cases hqtv : (resolveStep2 m fuel (resolveStep1 m p)).typeValue with
      | none => rw [hqtv] at hc2; exact absurd (by simp) hc2
      | some tv =>
        rw [hqtv] at hc2
        simp only [List.mem_cons, List.not_mem_nil, or_false, not_or] at hc2
        refine ⟨tv, rfl, ?_, ?_⟩
        · intro hh; subst hh; exact hc2.1 rfl
        · intro hh; subst hh; exact hc2.2.1 rfl
  · rintro ⟨hty, tv, htv, h1, h2⟩
    have hcond : ¬ (((resolveStep2 m fuel (resolveStep1 m p)).type.isSome ||
        decide ((resolveStep2 m fuel (resolveStep1 m p)).typeValue ∈
          [some "str", some "int", none])) = true) := by
      simp [hty, htv, h1, h2]
    refine ⟨"Property value type "
      ++ pyStr (resolveStep2 m fuel (resolveStep1 m p)).typeValue
      ++ " can not be found", ?_⟩
    simp only [resolveProp]
    rw [if_neg hcond]

/-- Counterexample to C4 as stated: a fully untyped property — no type node,
no `typeValue` — has neither a type-node reference nor a primitive-alias
`typeValue`, yet resolution returns it unchanged instead of raising. -/
theorem claim_C4_counterexample :
    resolveProp mSimple 1 blankProp = .ok blankProp ∧
      blankProp.type = none ∧ blankProp.typeValue ≠ some "str" ∧
      blankProp.typeValue ≠ some "int" :=
  ⟨rfl, rfl, by decide, by decide⟩

/-- Witness for the amended C4 at a property with the unresolvable raw type
string `"Unknown"`. -/
theorem claim_C4_fatal_unresolvable_witness :
    (∃ e, resolveProp mSimple 1 { blankProp with typeValue := some "Unknown" } = .error e) ↔
      ((resolveStep2 mSimple 1 (resolveStep1 mSimple
          { blankProp with typeValue := some "Unknown" })).type = none ∧
        ∃ tv, (resolveStep2 mSimple 1 (resolveStep1 mSimple
            { blankProp with typeValue := some "Unknown" })).typeValue = some tv ∧
          tv ≠ "str" ∧ tv ≠ "int") :=
  claim_C4_fatal_unresolvable mSimple 1 { blankProp with typeValue := some "Unknown" }

/-! ### Claim theorems for the emitters -/

/-- C5: when the override table has an entry for `ClassName.memberName`, the
declaration pass emits no default property line for that member — only the
override-typed line (or nothing at all for an extension end, which is
skipped before the override check) — and the association pass emits exactly
the override text verbatim, with no default association statement. -/
theorem claim_C5_override_precedence (m : Model) (fuel oIdx : Nat) (o : Overrides)
    (cname : String) (a : Property)
    (h : o.has_override (cname ++ "." ++ pyStr a.name) = true) :
    variableLinesFor m fuel (some o) oIdx cname a =
      .ok (if is_extension_end a then []
           else [pyStr a.name ++ ": " ++ o.get_type (cname ++ "." ++ pyStr a.name)]) ∧
    assocAttrStep m fuel (some o) cname a =
      .ok ([o.get_override (cname ++ "." ++ pyStr a.name)], []) := by
  constructor
  · by_cases hee : is_extension_end a
    · simp [variableLinesFor, hee]
    · simp [variableLinesFor, hee, hasOverrideOpt, h, getTypeOpt]
  · simp [assocAttrStep, hasOverrideOpt, h, getOverrideOpt]

/-- A concrete override table with one property entry `Foo.kind`. -/
def ovW : Overrides :=
  { entries := [{ name := "Foo.kind", text := "OVR", typeText := "TY" }], header := none }

/-- Witness for C5 at the concrete override entry `Foo.kind`. -/
theorem claim_C5_override_precedence_witness :
    ovW.has_override "Foo.kind" = true ∧
      (variableLinesFor mSimple 1 (some ovW) 0 "Foo"
          { blankProp with name := some "kind" } =
        .ok (if is_extension_end { blankProp with name := some "kind" } then []
             else [pyStr (some "kind") ++ ": " ++ ovW.get_type ("Foo" ++ "." ++
               pyStr (some "kind"))]) ∧
      assocAttrStep mSimple 1 (some ovW) "Foo" { blankProp with name := some "kind" } =
        .ok ([ovW.get_override ("Foo" ++ "." ++ pyStr (some "kind"))], [])) :=
  ⟨by decide,
    claim_C5_override_precedence mSimple 1 0 ovW "Foo"
      { blankProp with name := some "kind" } (by decide)⟩

/-- The single string attribute `name` of the `Foo` scenario. -/
def fooAttr : Property := { blankProp with name := some "name", typeValue := some "str" }

/-- The class `Foo` of the C6 scenario: no bases, one string attribute. -/
def fooCls : UMLClass :=
  { name := "Foo", generalization := [], ownedAttribute := [fooAttr], ownedOperation := [],
    appliedStereotypes := [], owningPackage := some 0 }

/-- A model containing only the `Foo` scenario class. -/
def mFoo : Model := {
  classes := [fooCls],
  packages := [{ name := "pkg", isProfile := false, owningPackage := none }] }

/-- Counterexample to C6 as stated: the declaration header emitted for a
class `Foo` with no generalization bases is `"class Foo():"` — with an empty
parenthesized base list — not the claimed exact line `"class Foo:"`. -/
theorem claim_C6_counterexample :
    class_declaration mFoo 0 ≠ "class Foo:" ∧ bases mFoo 0 = [] :=
  ⟨by decide, rfl⟩

/-- C6 (amended): for the class `Foo` with no bases and one primitive string
attribute `name` without default, the coder emits the declaration header
`class Foo():` followed by the property line declaring `name` as a string
attribute with no default clause. -/
theorem claim_C6_foo_scenario :
    class_declaration mFoo 0 = "class Foo():" ∧
      variablesOf mFoo 3 none 0 =
        .ok ["name: _attribute[str] = _attribute(\"name\", str)"] ∧
      fooAttr.defaultValue = none ∧ bases mFoo 0 = [] :=
  ⟨rfl, rfl, rfl, rfl⟩

/-- The redefinition lines collected by one attribute's association step:
exactly one redefinition statement when the non-overridden, non-skipped
attribute carries a truthy `redefines` slot, nothing otherwise. -/
theorem assocAttrStep_redefs (m : Model) (fuel : Nat) (ov : Option Overrides)
    (cname : String) (a : Property) (ms rs : List String)
    (h : assocAttrStep m fuel ov cname a = .ok (ms, rs)) :
    rs = (if hasOverrideOpt ov (cname ++ "." ++ pyStr a.name) then []
          else if assocSkip m fuel a then []
          else if pyTruthy (redefines a) then [redefLine m cname a]
          else []) := by
  by_cases h1 : hasOverrideOpt ov (cname ++ "." ++ pyStr a.name)
  · simp only [assocAttrStep, h1, if_true] at h ⊢
    simp only [Option.some.injEq, Except.ok.injEq, Prod.mk.injEq] at h
    exact h.2.symm
  · by_cases h2 : assocSkip m fuel a
    · simp only [assocAttrStep, h1, h2, if_true, if_false, Bool.false_eq_true] at h ⊢
      simp only [Except.ok.injEq, Prod.mk.injEq] at h
      exact h.2.symm
    · by_cases h3 : pyTruthy (redefines a)
      · simp only [assocAttrStep, h1, h2, h3, if_true, if_false, Bool.false_eq_true] at h ⊢
        simp only [Except.ok.injEq, Prod.mk.injEq] at h
        exact h.2.symm
      · simp only [assocAttrStep, h1, h2, h3, if_false, Bool.false_eq_true] at h ⊢
        by_cases h4 : a.isDerived
        · simp only [h4, if_true] at h
          simp only [Except.ok.injEq, Prod.mk.injEq] at h
          exact h.2.symm
        · simp only [h4, Bool.false_eq_true, if_false] at h
          by_cases h5 : pyTruthy a.name
          · simp only [h5, Bool.not_true, Bool.false_eq_true, if_false] at h
            simp only [Except.ok.injEq, Prod.mk.injEq] at h
            exact h.2.symm
          · simp only [h5, Bool.not_false, if_true] at h
            exact absurd h (by simp)

/-- The accumulated redefinition lines of the association pass are exactly
the redefinition statements of the (non-overridden, non-skipped) attributes
carrying a truthy `redefines` slot, in attribute order. -/
theorem associationsAcc_redefs (m : Model) (fuel : Nat) (ov : Option Overrides)
    (cname : String) :
    ∀ attrs ms rs, associationsAcc m fuel ov cname attrs = .ok (ms, rs) →
      rs = attrs.filterMap (fun a =>
        if hasOverrideOpt ov (cname ++ "." ++ pyStr a.name) then none
        else if assocSkip m fuel a then none
        else if pyTruthy (redefines a) then some (redefLine m cname a)
        else none) := by
  intro attrs
  induction attrs with
  | nil =>
    intro ms rs h
    simp only [associationsAcc, Except.ok.injEq, Prod.mk.injEq] at h
    simp [← h.2]
  | cons a rest ih =>
    intro ms rs h
    rw [associationsAcc] at h
    cases hstep : assocAttrStep m fuel ov cname a with
    | error e => rw [hstep] at h; exact absurd h (by simp)
    | ok p =>
      obtain ⟨ms1, rs1⟩ := p
      rw [hstep] at h
      cases hrest : associationsAcc m fuel ov cname rest with
      | error e => rw [hrest] at h; exact absurd h (by simp)
      | ok q =>
        obtain ⟨ms2, rs2⟩ := q
        rw [hrest] at h
        simp only [Except.ok.injEq, Prod.mk.injEq] at h
        obtain ⟨_, hrs⟩ := h
        subst hrs
        have h1 := assocAttrStep_redefs m fuel ov cname a ms1 rs1 hstep
        have h2 := ih ms2 rs2 hrest
        rw [List.filterMap_cons]
        by_cases hov : hasOverrideOpt ov (cname ++ "." ++ pyStr a.name)
        · simp only [hov, if_true] at h1 ⊢
          subst h1; subst h2; simp
        · by_cases hsk : assocSkip m fuel a
          · simp only [hov, hsk, if_true, if_false, Bool.false_eq_true] at h1 ⊢
            subst h1; subst h2; simp
          · by_cases hrd : pyTruthy (redefines a)
            · simp only [hov, hsk, hrd, if_true, if_false, Bool.false_eq_true] at h1 ⊢
              subst h1; subst h2; simp
            · simp only [hov, hsk, hrd, if_false, Bool.false_eq_true] at h1 ⊢
              subst h1; subst h2; simp

/-- C7 (amended): in the association pass, attributes without an override
entry that are untyped, simple-typed, enumeration-typed or extension ends
contribute no statement (overridden members always emit their override
line, see the counterexample); the class's block is the non-redefinition
statements in attribute order followed by all redefinition statements,
which are exactly those of the attributes carrying a truthy `redefines`
slot. -/
theorem claim_C7_assoc_skip_and_defer (m : Model) (fuel : Nat) (ov : Option Overrides)
    (ci : Nat) (c : UMLClass) (hc : m.classes[ci]? = some c) (out : List String)
    (h : associations m fuel ov ci = .ok out) :
    (∃ ms rs, associationsAcc m fuel ov c.name c.ownedAttribute = .ok (ms, rs) ∧
      out = ms ++ rs ∧
      rs = c.ownedAttribute.filterMap (fun a =>
        if hasOverrideOpt ov (c.name ++ "." ++ pyStr a.name) then none
        else if assocSkip m fuel a then none
        else if pyTruthy (redefines a) then some (redefLine m c.name a)
        else none)) ∧
    (∀ a, hasOverrideOpt ov (c.name ++ "." ++ pyStr a.name) = false →
      assocSkip m fuel a = true → assocAttrStep m fuel ov c.name a = .ok ([], [])) := by
  constructor
  · rw [associations, hc] at h
    have h' : associationsOfClass m fuel ov c.name c.ownedAttribute = .ok out := h
    rw [associationsOfClass] at h'
    cases hacc : associationsAcc m fuel ov c.name c.ownedAttribute with
    | error e => rw [hacc] at h'; exact absurd h' (by simp)
    | ok p =>
      obtain ⟨ms, rs⟩ := p
      rw [hacc] at h'
      have h2 : Except.ok (ms ++ rs) = (Except.ok out : Except String (List String)) := h'
      simp only [Except.ok.injEq] at h2
      exact ⟨ms, rs, rfl, h2.symm,
        associationsAcc_redefs m fuel ov c.name c.ownedAttribute ms rs hacc⟩
  · intro a hov hsk
    simp [assocAttrStep, hov, hsk]

/-- Witness for the amended C7: the `Foo` class's only attribute is
primitive-typed and not overridden, so its association block is empty. -/
theorem claim_C7_assoc_skip_and_defer_witness :
    mFoo.classes[0]? = some fooCls ∧ associations mFoo 1 none 0 = .ok [] ∧
      ((∃ ms rs, associationsAcc mFoo 1 none fooCls.name fooCls.ownedAttribute =
          .ok (ms, rs) ∧ ([] : List String) = ms ++ rs ∧
        rs = fooCls.ownedAttribute.filterMap (fun a =>
          if hasOverrideOpt none (fooCls.name ++ "." ++ pyStr a.name) then none
          else if assocSkip mFoo 1 a then none
          else if pyTruthy (redefines a) then some (redefLine mFoo fooCls.name a)
          else none)) ∧
      (∀ a, hasOverrideOpt none (fooCls.name ++ "." ++ pyStr a.name) = false →
        assocSkip mFoo 1 a = true → assocAttrStep mFoo 1 none fooCls.name a = .ok ([], []))) :=
  ⟨rfl, rfl, claim_C7_assoc_skip_and_defer mFoo 1 none 0 fooCls rfl [] rfl⟩

/-- Counterexample to C7 as stated: an untyped (hence skip-set) attribute
with an override entry still produces an association-pass line — the
override check precedes the skip check. -/
theorem claim_C7_counterexample :
    fooAttr.type = none ∧ assocSkip mFoo 1 fooAttr = true ∧
      associations mFoo 1
        (some { entries := [{ name := "Foo.name", text := "OVR", typeText := "T" }],
                header := none }) 0 = .ok ["OVR"] ∧
      (["OVR"] : List String) ≠ [] :=
  ⟨rfl, rfl, rfl, by decide⟩

/-- C9: an attribute with no default value yields an empty default clause and
never raises; the fatal unknown-default-value-type error can only be raised
for an attribute whose default value is set and truthy and whose resolved
primitive `typeValue` is neither `"int"` nor `"str"`. -/
theorem claim_C9_default_value (ownerName : String) (a : Property) :
    (a.defaultValue = none → default_value ownerName a = .ok "") ∧
    (∀ e, default_value ownerName a = .error e →
      pyTruthy a.defaultValue = true ∧ a.typeValue ≠ some "int" ∧
        a.typeValue ≠ some "str") := by
  constructor
  · intro h
    simp [default_value, h, pyTruthy]
  · intro e he
    by_cases hd : pyTruthy a.defaultValue
    · refine ⟨hd, ?_, ?_⟩
      · intro hh
        simp [default_value, hd, hh] at he
      · intro hh
        have e1 : ((some "str" : Option String) == some "int") = false := by decide
        simp [default_value, hd, hh, e1] at he
    · simp [default_value, hd] at he

/-- Witness for C9: the blank property has no default and yields an empty
default clause. -/
theorem claim_C9_default_value_witness :
    blankProp.defaultValue = none ∧ default_value "O" blankProp = .ok "" :=
  ⟨rfl, (claim_C9_default_value "O" blankProp).1 rfl⟩

/-- C8 (amended): the coder's class selection excludes every enumeration
class from normal emission (one can still receive a declaration when
reachable as a generalization base of a selected class, see the
counterexample); and at every attribute whose type is an enumeration with at
least one owned value — absent an override, a raw `typeValue` and an
extension association — the emitted property line inlines all of the
enumeration's owned values as literals with the first owned value as the
default. -/
theorem claim_C8_enum_handling (m : Model) (fuel oIdx : Nat) (ov : Option Overrides)
    (cname : String) (a : Property) (ti : Nat) (tc : UMLClass) (e0 : Property)
    (vrest : List Property) :
    (∀ ci ∈ coderSelect m fuel, ∀ c, m.classes[ci]? = some c →
      is_enumeration_cls c = false) ∧
    (a.type = some ti → m.classes[ti]? = some tc → is_enumeration_cls tc = true →
      tc.ownedAttribute = e0 :: vrest →
      hasOverrideOpt ov (cname ++ "." ++ pyStr a.name) = false →
      pyTruthy a.typeValue = false → is_extension_end a = false →
      variableLinesFor m fuel ov oIdx cname a = .ok [enumLine a e0 (e0 :: vrest)]) := by
  constructor
  · intro ci hci c hc
    have hmem := List.mem_filter.mp hci
    rw [hc] at hmem
    have hpred := hmem.2
    simp only [Bool.not_eq_true', Bool.or_eq_false_iff] at hpred
    exact hpred.1.1.1
  · intro hti htc henum hvals hov htv hee
    have henumref : is_enumeration_ref m (some ti) = true := by
      simp [is_enumeration_ref, htc, henum]
    simp only [variableLinesFor, hee, Bool.false_eq_true, if_false, hov, htv, hti,
      henumref, if_true, Option.isNone_some, Bool.and_false, htc, hvals]

/-- A one-class model holding the enumeration `EKind` with owned values
`one` and `two`. -/
def mEnum : Model := {
  classes := [
    { name := "EKind", generalization := [],
      ownedAttribute := [{ blankProp with name := some "one" },
        { blankProp with name := some "two" }],
      ownedOperation := [], appliedStereotypes := [], owningPackage := some 0 }],
  packages := [{ name := "pkg", isProfile := false, owningPackage := none }] }

/-- Witness for the amended C8: an `EKind`-typed attribute inlines both owned
values with `one` as the default. -/
theorem claim_C8_enum_handling_witness :
    (({ blankProp with type := some 0 } : Property).type = some 0 ∧
      pyTruthy ({ blankProp with type := some 0 } : Property).typeValue = false ∧
      variableLinesFor mEnum 1 none 0 "C" { blankProp with type := some 0 } =
        .ok ["a = _enumeration(\"a\", (\"one\", \"two\"), \"one\")"]) ∧
      (∀ ci ∈ coderSelect mEnum 1, ∀ c, mEnum.classes[ci]? = some c →
        is_enumeration_cls c = false) := by
  have h := claim_C8_enum_handling mEnum 1 0 none "C" { blankProp with type := some 0 }
    0 (mEnum.classes.get ⟨0, by decide⟩) { blankProp with name := some "one" }
    [{ blankProp with name := some "two" }]
  refine ⟨⟨rfl, rfl, ?_⟩, h.1⟩
  have h2 := h.2 rfl rfl (by decide) rfl (by decide) rfl rfl
  rw [h2]
  rfl

/-- The enumeration class `BarKind` used as a generalization base. -/
def barKindCls : UMLClass :=
  { name := "BarKind", generalization := [], ownedAttribute := [], ownedOperation := [],
    appliedStereotypes := [], owningPackage := some 0 }

/-- A model where the ordinary class `Foo2` derives from the enumeration
`BarKind`. -/
def mC8 : Model := {
  classes := [
    { name := "Foo2", generalization := [1], ownedAttribute := [], ownedOperation := [],
      appliedStereotypes := [], owningPackage := some 0 },
    barKindCls],
  packages := [{ name := "pkg", isProfile := false, owningPackage := none }] }

/-- Counterexample to C8 as stated: the enumeration `BarKind` is a
generalization base of the selected class `Foo2`, so the class ordering
pulls it in and the coder does emit a class declaration for it. -/
theorem claim_C8_counterexample :
    is_enumeration_cls barKindCls = true ∧
      mC8.classes[1]? = some barKindCls ∧
      coder mC8 9 [] none = .ok ([header,
        "class BarKind():", "    pass", "", "",
        "class Foo2(BarKind):", "    pass", "", "", ""]) ∧
      "class BarKind():" ∈ ([header,
        "class BarKind():", "    pass", "", "",
        "class Foo2(BarKind):", "    pass", "", "", ""] : List String) :=
  ⟨rfl, rfl, rfl, by simp⟩

end GaphorCoder
